import Mathlib

/-!
Verification of the data-retrieval and selection layer of the SkillCorner
Streamlit dashboard (src/app.py).  The Python functions are embedded shallowly:
each `requests` interaction is modelled by an explicit input value (a response
page or a raised exception), Streamlit side effects (`st.error`, `st.dataframe`)
are recorded in the returned value or in an explicit display state, and pandas
DataFrames are modelled as Lean lists of rows.
-/

namespace Skillcorner

/-! ## The paginated matches fetcher, `fetch_all_matches` (app.py lines 49-65) -/

/-- One page of the paginated matches endpoint as consumed by the loop body of
`fetch_all_matches`: HTTP status code, the parsed `results` array of the JSON
body, the body's `next` field (`none` models JSON null as well as an absent
key, since Python's `data.get("next")` yields `None` in both cases), and the
response text used in the error message. -/
structure MatchPage (α : Type) where
  status : Nat
  results : List α
  next : Option String
  text : String
deriving DecidableEq, Repr

/-- The outcome of one `requests.get` call inside the pagination loop: either a
response page, or a raised requests exception (timeout, DNS failure, connection
reset) carrying its message.  The loop body of `fetch_all_matches` wraps the
call in no try/except. -/
inductive GetStep (α : Type) where
  | resp : MatchPage α → GetStep α
  | exn : String → GetStep α
deriving DecidableEq, Repr

/-- What a call of `fetch_all_matches` can do: return a DataFrame built from the
accumulated rows (`df`), together with the one `st.error` message (status code
and response text) shown if a non-200 page was hit, or escape with an uncaught
exception (`raised`). -/
inductive MatchesOutcome (α : Type) where
  | df : List α → Option (Nat × String) → MatchesOutcome α
  | raised : String → MatchesOutcome α
deriving DecidableEq, Repr

/-- Python truthiness of the `url` variable: the loop guard `while url` is
False exactly when `url` is `None` or the empty string. -/
def truthy : Option String → Bool
  | none => false
  | some s => s ≠ ""

/-- The `while url:` loop of `fetch_all_matches` (app.py lines 54-62), driven by
the successive outcomes of `requests.get`.  On a 200 response the page's
`results` extend the accumulator and `url` becomes the body's `next` field; on
any other status an error message is shown and the loop breaks; an exception
raised by `requests.get` propagates out of the function.  After the loop the
accumulator is returned as a DataFrame (lines 64-65), whether or not an error
message was shown.  (The case of a truthy `url` with no step left cannot occur
in a run, since every issued request produces a step; it is mapped to the
loop-exit result.) -/
def fetchMatchesLoop {α : Type} (steps : List (GetStep α)) (url : Option String)
    (acc : List α) : MatchesOutcome α :=
  if truthy url then
    match steps with
    | [] => .df acc none
    | .exn cause :: _ => .raised cause
    | .resp p :: rest =>
      if p.status = 200 then fetchMatchesLoop rest p.next (acc ++ p.results)
      else .df acc (some (p.status, p.text))
  else .df acc none

/-- The starting URL of the matches fetch, `BASE_URL + "/matches/?user=true"`
(app.py line 50); a non-empty string, so the loop guard holds on entry. -/
def matchesStartURL : String := "https://skillcorner.com/api/matches/?user=true"

/-- `fetch_all_matches` (app.py lines 49-65), as a function of the sequence of
`requests.get` outcomes its loop observes. -/
def fetch_all_matches {α : Type} (steps : List (GetStep α)) : MatchesOutcome α :=
  fetchMatchesLoop steps (some matchesStartURL) []

/-- Every page except possibly the last hands the loop a truthy (non-null,
non-empty) `next` URL, so that pagination visits the whole list. -/
def chainedPages {α : Type} : List (MatchPage α) → Bool
  | [] => true
  | [_] => true
  | p :: q :: rest => truthy p.next && chainedPages (q :: rest)

theorem fetchMatchesLoop_nil {α : Type} (url : Option String) (acc : List α) :
    fetchMatchesLoop ([] : List (GetStep α)) url acc = .df acc none := by
  unfold fetchMatchesLoop
  split <;> rfl

theorem fetchMatchesLoop_ok {α : Type} (p : MatchPage α) (rest : List (GetStep α))
    (url : Option String) (acc : List α) (hurl : truthy url = true)
    (hst : p.status = 200) :
    fetchMatchesLoop (GetStep.resp p :: rest) url acc
      = fetchMatchesLoop rest p.next (acc ++ p.results) := by
  conv_lhs => rw [fetchMatchesLoop]
  simp [hurl, hst]

theorem fetchMatchesLoop_err {α : Type} (p : MatchPage α) (rest : List (GetStep α))
    (url : Option String) (acc : List α) (hurl : truthy url = true)
    (hst : ¬ p.status = 200) :
    fetchMatchesLoop (GetStep.resp p :: rest) url acc
      = .df acc (some (p.status, p.text)) := by
  unfold fetchMatchesLoop
  simp [hurl, hst]

theorem fetchMatchesLoop_exn {α : Type} (cause : String) (rest : List (GetStep α))
    (url : Option String) (acc : List α) (hurl : truthy url = true) :
    fetchMatchesLoop (GetStep.exn cause :: rest) url acc = .raised cause := by
  unfold fetchMatchesLoop
  simp [hurl]

/-- The loop, run over a list of all-200 pages whose `next` fields chain, appends
every page's `results` to the accumulator and ends normally. -/
theorem fetchMatchesLoop_all_ok {α : Type} :
    ∀ (ps : List (MatchPage α)) (url : Option String) (acc : List α),
      (∀ p ∈ ps, p.status = 200) → chainedPages ps = true → truthy url = true →
      fetchMatchesLoop (ps.map GetStep.resp) url acc
        = .df (acc ++ ps.flatMap MatchPage.results) none
  | [], url, acc, _, _, hurl => by
      simp [fetchMatchesLoop_nil]
  | p :: rest, url, acc, h200, hch, hurl => by
      rw [List.map_cons, fetchMatchesLoop_ok p _ url acc hurl (h200 p (by simp))]
      cases rest with
      | nil =>
          cases hn : truthy p.next <;>
            · unfold fetchMatchesLoop
              simp [hn]
      | cons q rest' =>
          have hch' : truthy p.next = true ∧ chainedPages (q :: rest') = true := by
            simpa [chainedPages, Bool.and_eq_true] using hch
          rw [fetchMatchesLoop_all_ok (q :: rest') p.next (acc ++ p.results)
                (fun r hr => h200 r (by simp [hr])) hch'.2 hch'.1]
          simp [List.flatMap_cons]

/-- The loop, on reaching a page whose status is not 200 after a run of 200
pages with truthy `next` fields, shows the error and returns the rows
accumulated so far. -/
theorem fetchMatchesLoop_stops_on_error {α : Type} (bad : MatchPage α)
    (rest : List (GetStep α)) :
    ∀ (good : List (MatchPage α)) (url : Option String) (acc : List α),
      (∀ p ∈ good, p.status = 200 ∧ truthy p.next = true) → truthy url = true →
      ¬ bad.status = 200 →
      fetchMatchesLoop (good.map GetStep.resp ++ GetStep.resp bad :: rest) url acc
        = .df (acc ++ good.flatMap MatchPage.results) (some (bad.status, bad.text))
  | [], url, acc, _, hurl, hbad => by
      simp [fetchMatchesLoop_err bad rest url acc hurl hbad]
  | p :: g, url, acc, hg, hurl, hbad => by
      rw [List.map_cons, List.cons_append,
          fetchMatchesLoop_ok p _ url acc hurl (hg p (by simp)).1,
          fetchMatchesLoop_stops_on_error bad rest g p.next (acc ++ p.results)
            (fun r hr => hg r (by simp [hr])) (hg p (by simp)).2 hbad]
      simp [List.flatMap_cons]

/-- Claim C1, counterexample: a run whose first page is a 200 carrying one row
and a next cursor, and whose second request answers 503, makes
`fetch_all_matches` return the accumulated first page as a normal non-empty
DataFrame (alongside the displayed error message) — not an error-only value, so
the pages accumulated before the failing page are returned. -/
theorem fetch_all_matches_partial_counterexample :
    fetch_all_matches [GetStep.resp (⟨200, [7], some "u2", "b1"⟩ : MatchPage Nat),
        GetStep.resp ⟨503, [], none, "Service Unavailable"⟩]
      = MatchesOutcome.df [7] (some (503, "Service Unavailable")) ∧
    ([7] : List Nat) ≠ [] :=
  ⟨rfl, by decide⟩

/-- Claim C1 (amended): when a page of the matches collection answers with a
non-200 status, `fetch_all_matches` shows one error message carrying the status
code and response text and stops paginating, but it still returns the rows
accumulated from the pages before the failing one as a normal DataFrame (app.py
lines 60-65: `break` followed by `return pd.DataFrame(results)`). -/
theorem fetch_all_matches_returns_partial_on_http_error {α : Type}
    (good : List (MatchPage α)) (bad : MatchPage α) (rest : List (GetStep α))
    (hgood : ∀ p ∈ good, p.status = 200 ∧ truthy p.next = true)
    (hbad : ¬ bad.status = 200) :
    fetch_all_matches (good.map GetStep.resp ++ GetStep.resp bad :: rest)
      = .df (good.flatMap MatchPage.results) (some (bad.status, bad.text)) := by
  have h := fetchMatchesLoop_stops_on_error bad rest good (some matchesStartURL) []
    hgood (by decide) hbad
  simpa [fetch_all_matches] using h

/-- Witness for the amended claim C1 at a concrete run: one successful page with
row 7, then a 503. -/
theorem fetch_all_matches_returns_partial_on_http_error_witness :
    fetch_all_matches ([(⟨200, [7], some "u2", "b1"⟩ : MatchPage Nat)].map GetStep.resp
        ++ GetStep.resp (⟨503, [], none, "Service Unavailable"⟩ : MatchPage Nat) :: [])
      = .df ([(⟨200, [7], some "u2", "b1"⟩ : MatchPage Nat)].flatMap MatchPage.results)
          (some (503, "Service Unavailable")) :=
  fetch_all_matches_returns_partial_on_http_error _ _ _ (by decide) (by decide)

/-- Claim C2, counterexample: two pages, both HTTP 200, where the first page's
`next` field is present and non-null but is the empty string.  Python's
`while url` guard is false on the empty string, so the loop stops after the
first page even though `next` is neither null nor absent, and the accumulated
row count 1 differs from the two pages' total 2. -/
theorem fetch_all_matches_empty_next_counterexample :
    fetch_all_matches [GetStep.resp (⟨200, [1], some "", "b1"⟩ : MatchPage Nat),
        GetStep.resp ⟨200, [2], some "u3", "b2"⟩]
      = MatchesOutcome.df [1] none ∧
    (some "" ≠ (none : Option String)) ∧
    ([1] : List Nat).length ≠ ([1] : List Nat).length + ([2] : List Nat).length :=
  ⟨rfl, by decide, by decide⟩

/-- Claim C2 (amended): when every page answers HTTP 200 and every page but the
last supplies a truthy (non-null, non-empty) `next` URL, `fetch_all_matches`
accumulates all pages and the result length is the sum of the pages' `results`
lengths.  The loop guard `while url` terminates the loop on a falsy `next` —
null, absent, or the empty string — not only on null/absent. -/
theorem fetch_all_matches_accumulates_all_pages {α : Type} (ps : List (MatchPage α))
    (h200 : ∀ p ∈ ps, p.status = 200) (hch : chainedPages ps = true) :
    fetch_all_matches (ps.map GetStep.resp) = .df (ps.flatMap MatchPage.results) none ∧
    (ps.flatMap MatchPage.results).length = (ps.map fun p => p.results.length).sum := by
  constructor
  · have h := fetchMatchesLoop_all_ok ps (some matchesStartURL) [] h200 hch (by decide)
    simpa [fetch_all_matches] using h
  · rw [List.length_flatMap]
    congr 1

/-- Witness for the amended claim C2 at a concrete two-page run. -/
theorem fetch_all_matches_accumulates_all_pages_witness :
    fetch_all_matches ([(⟨200, [10, 11], some "p2", "b1"⟩ : MatchPage Nat),
        ⟨200, [12], none, "b2"⟩].map GetStep.resp)
      = .df ([(⟨200, [10, 11], some "p2", "b1"⟩ : MatchPage Nat),
          ⟨200, [12], none, "b2"⟩].flatMap MatchPage.results) none ∧
    (([(⟨200, [10, 11], some "p2", "b1"⟩ : MatchPage Nat),
        ⟨200, [12], none, "b2"⟩]).flatMap MatchPage.results).length
      = (([(⟨200, [10, 11], some "p2", "b1"⟩ : MatchPage Nat),
          ⟨200, [12], none, "b2"⟩]).map fun p => p.results.length).sum :=
  fetch_all_matches_accumulates_all_pages _ (by decide) (by decide)

/-- Claim C3: the loop body of `fetch_all_matches` wraps `requests.get` in no
try/except (unlike `fetch_competition_editions`), so a network-level failure
(timeout, DNS, connection reset) propagates as an uncaught exception out of the
function instead of producing any error value or message.  Here: the first page
succeeds, the second request times out, and the whole call escapes with the
exception, discarding the accumulated rows. -/
theorem fetch_all_matches_network_failure_raises :
    fetch_all_matches [GetStep.resp (⟨200, [7], some "u2", "b1"⟩ : MatchPage Nat),
        GetStep.exn "ConnectTimeout"]
      = MatchesOutcome.raised "ConnectTimeout" :=
  rfl

/-! ## The reference-data fetcher, `fetch_competition_editions` (app.py lines 16-45) -/

/-- A JSON scalar stored in an extracted row dict: the id fields are integers,
the name fields strings. -/
inductive PyVal where
  | int : Int → PyVal
  | str : String → PyVal
deriving DecidableEq, Repr

/-- One raw record of the `results` array of the competition-editions response.
Each field holds the value found at the corresponding nested path
(`competition.id`, `competition.name`, `season.id`, `season.start_year`,
`season.end_year`), or `none` when that path is missing — in which case the
Python subscript raises `KeyError`. -/
structure RawEdition where
  competition_id : Option Int
  competition_name : Option String
  season_id : Option Int
  season_start_year : Option Int
  season_end_year : Option Int
deriving DecidableEq, Repr

/-- A row dict as pandas receives it: an ordered association of column names to
values. -/
abbrev RowDict := List (String × PyVal)

/-- The dict literal built by the list comprehension of
`fetch_competition_editions` (app.py lines 31-36) for one record: the four
columns, with `season_name` synthesized by the f-string as
start_year ++ "/" ++ end_year.  Yields `none` when a required nested field is
absent, in which case the comprehension raises `KeyError`. -/
def extractEdition (r : RawEdition) : Option RowDict :=
  match r.competition_id, r.competition_name, r.season_id,
      r.season_start_year, r.season_end_year with
  | some ci, some cn, some si, some sy, some ey =>
      some [("competition_id", .int ci), ("competition_name", .str cn),
            ("season_id", .int si),
            ("season_name", .str (toString sy ++ "/" ++ toString ey))]
  | _, _, _, _, _ => none

/-- The whole list comprehension (app.py lines 30-38): extract every record in
order, aborting on the first malformed one. -/
def extractEditions : List RawEdition → Option (List RowDict)
  | [] => some []
  | r :: rs =>
    match extractEdition r, extractEditions rs with
    | some row, some rows => some (row :: rows)
    | _, _ => none

/-- An input to `fetch_competition_editions`: what `requests.get` plus
`response.json()` yield.  `exn` is a raised
`requests.exceptions.RequestException` (connection failure, timeout, or an
unparseable JSON body — requests raises its own `JSONDecodeError`, a
`RequestException`); `resp` is a parsed response carrying its status code and
the value of the body's "results" key (`none` when the key is absent). -/
inductive EditionsInput where
  | exn : String → EditionsInput
  | resp : Nat → Option (List RawEdition) → EditionsInput
deriving DecidableEq, Repr

/-- What a call of `fetch_competition_editions` can do: return `None` after
showing an error message, return the extracted DataFrame, or escape with an
uncaught exception — a `KeyError` from a malformed record is not a
`RequestException`, so the except clause does not catch it. -/
inductive EditionsOutcome where
  | retNone : String → EditionsOutcome
  | retTable : List RowDict → EditionsOutcome
  | raised : String → EditionsOutcome
deriving DecidableEq, Repr

/-- `fetch_competition_editions` (app.py lines 16-45), as a function of the
observed request outcome.  `response.raise_for_status()` raises `HTTPError` —
a `RequestException`, hence caught by the except clause — exactly for the 4xx
and 5xx status codes. -/
def fetch_competition_editions (input : EditionsInput) : EditionsOutcome :=
  match input with
  | .exn cause => .retNone ("API Request Failed: " ++ cause)
  | .resp status body =>
    if 400 ≤ status ∧ status < 600 then
      .retNone ("API Request Failed: HTTPError " ++ toString status)
    else
      match body with
      | none => .retNone "API Response does not contain results"
      | some results =>
        match extractEditions results with
        | none => .raised "KeyError"
        | some rows => .retTable rows

/-- All five required nested fields are present in the record. -/
def completeEdition (r : RawEdition) : Bool :=
  r.competition_id.isSome && r.competition_name.isSome && r.season_id.isSome
    && r.season_start_year.isSome && r.season_end_year.isSome

/-- The four column names of every extracted row, in dict-literal order. -/
def editionColumns : List String :=
  ["competition_id", "competition_name", "season_id", "season_name"]

theorem extractEdition_complete (r : RawEdition) (h : completeEdition r = true) :
    extractEdition r
      = some [("competition_id", .int (r.competition_id.getD 0)),
          ("competition_name", .str (r.competition_name.getD "")),
          ("season_id", .int (r.season_id.getD 0)),
          ("season_name", .str (toString (r.season_start_year.getD 0) ++ "/"
              ++ toString (r.season_end_year.getD 0)))] := by
  simp only [completeEdition, Bool.and_eq_true, Option.isSome_iff_exists] at h
  obtain ⟨⟨⟨⟨⟨ci, hci⟩, cn, hcn⟩, si, hsi⟩, sy, hsy⟩, ey, hey⟩ := h
  simp [extractEdition, hci, hcn, hsi, hsy, hey]

theorem extractEditions_of_complete (rs : List RawEdition)
    (h : ∀ r ∈ rs, completeEdition r = true) :
    ∃ rows, extractEditions rs = some rows ∧ rows.length = rs.length ∧
      List.Forall₂ (fun (r : RawEdition) (row : RowDict) =>
        row.lookup "season_name"
          = some (.str (toString (r.season_start_year.getD 0) ++ "/"
              ++ toString (r.season_end_year.getD 0)))) rs rows := by
  induction rs with
  | nil => exact ⟨[], rfl, rfl, List.Forall₂.nil⟩
  | cons r rs ih =>
      obtain ⟨rows, he, hl, hf⟩ := ih fun x hx => h x (by simp [hx])
      have hr := extractEdition_complete r (h r (by simp))
      refine ⟨[("competition_id", .int (r.competition_id.getD 0)),
          ("competition_name", .str (r.competition_name.getD "")),
          ("season_id", .int (r.season_id.getD 0)),
          ("season_name", .str (toString (r.season_start_year.getD 0) ++ "/"
              ++ toString (r.season_end_year.getD 0)))] :: rows, ?_, by simp [hl],
        List.Forall₂.cons rfl hf⟩
      simp [extractEditions, hr, he]

theorem extractEditions_columns (rs : List RawEdition) (rows : List RowDict)
    (he : extractEditions rs = some rows) :
    ∀ row ∈ rows, row.map Prod.fst = editionColumns := by
  induction rs generalizing rows with
  | nil =>
      simp only [extractEditions, Option.some_inj] at he
      subst he
      simp
  | cons r rs ih =>
      simp only [extractEditions] at he
      cases h1 : extractEdition r with
      | none => rw [h1] at he; exact absurd he (by simp)
      | some row =>
          rw [h1] at he
          cases h2 : extractEditions rs with
          | none => rw [h2] at he; exact absurd he (by simp)
          | some tl =>
              rw [h2] at he
              simp only [Option.some_inj] at he
              subst he
              intro x hx
              rcases List.mem_cons.mp hx with hx | hx
              · subst hx
                unfold extractEdition at h1
                split at h1
                · simp only [Option.some_inj] at h1
                  subst h1
                  rfl
                · exact absurd h1 (by simp)
              · exact ih tl h2 x hx

/-- Claim C4: on a 200 response whose records all carry the five required
nested fields, the normalization inside `fetch_competition_editions` produces
exactly one row per record, and each row's `season_name` column is the string
start_year ++ "/" ++ end_year built from that record's season fields. -/
theorem fetch_competition_editions_normalizes (rs : List RawEdition)
    (h : ∀ r ∈ rs, completeEdition r = true) :
    fetch_competition_editions (.resp 200 (some rs))
        = .retTable ((extractEditions rs).getD []) ∧
    ((extractEditions rs).getD []).length = rs.length ∧
    List.Forall₂ (fun (r : RawEdition) (row : RowDict) =>
      row.lookup "season_name"
        = some (.str (toString (r.season_start_year.getD 0) ++ "/"
            ++ toString (r.season_end_year.getD 0))))
      rs ((extractEditions rs).getD []) := by
  obtain ⟨rows, he, hl, hf⟩ := extractEditions_of_complete rs h
  refine ⟨?_, by simp [he, hl], by simpa [he] using hf⟩
  simp [fetch_competition_editions, he]

/-- Witness for claim C4 at a concrete record with start year 2023 and end
year 2024: the synthesized season name is "2023/2024". -/
theorem fetch_competition_editions_normalizes_witness :
    fetch_competition_editions
        (.resp 200 (some [⟨some 1, some "Ligue 1", some 10, some 2023, some 2024⟩]))
        = .retTable ((extractEditions
            [⟨some 1, some "Ligue 1", some 10, some 2023, some 2024⟩]).getD []) ∧
    ((extractEditions
        [⟨some 1, some "Ligue 1", some 10, some 2023, some 2024⟩]).getD []).length
      = [(⟨some 1, some "Ligue 1", some 10, some 2023, some 2024⟩ : RawEdition)].length ∧
    List.Forall₂ (fun (r : RawEdition) (row : RowDict) =>
      row.lookup "season_name"
        = some (.str (toString (r.season_start_year.getD 0) ++ "/"
            ++ toString (r.season_end_year.getD 0))))
      [⟨some 1, some "Ligue 1", some 10, some 2023, some 2024⟩]
      ((extractEditions
          [⟨some 1, some "Ligue 1", some 10, some 2023, some 2024⟩]).getD []) :=
  fetch_competition_editions_normalizes _ (by decide)

/-- Claim C5, counterexample: a 200 response whose body carries the "results"
key with an empty list is not treated as an error — `fetch_competition_editions`
returns an empty DataFrame, not `None`, so the EmptyResultSet condition does
not cover the empty-list case. -/
theorem fetch_competition_editions_empty_counterexample :
    fetch_competition_editions (.resp 200 (some [])) = .retTable [] :=
  rfl

/-- Claim C5 (amended): on a successful (non-4xx/5xx) response,
`fetch_competition_editions` returns `None` with a visible message exactly when
the body lacks the "results" key; a present but empty results list is returned
as an empty DataFrame, not as an error. -/
theorem fetch_competition_editions_missing_results (status : Nat)
    (hok : status < 400) :
    fetch_competition_editions (.resp status none)
        = .retNone "API Response does not contain results" ∧
    fetch_competition_editions (.resp status (some [])) = .retTable [] := by
  have hnot : ¬ (400 ≤ status ∧ status < 600) := by omega
  exact ⟨by simp [fetch_competition_editions, hnot],
    by simp [fetch_competition_editions, hnot, extractEditions]⟩

/-- Witness for the amended claim C5 at status 200. -/
theorem fetch_competition_editions_missing_results_witness :
    fetch_competition_editions (.resp 200 none)
        = .retNone "API Response does not contain results" ∧
    fetch_competition_editions (.resp 200 (some [])) = .retTable [] :=
  fetch_competition_editions_missing_results 200 (by decide)

/-- Claim C10: every value `fetch_competition_editions` returns is either
`None` (after a visible error message) or a table whose every row has exactly
the four columns competition_id, competition_name, season_id, season_name, in
that order; a malformed record makes the call escape with a `KeyError` rather
than return a partially populated row. -/
theorem fetch_competition_editions_row_shape (input : EditionsInput) :
    (∃ msg, fetch_competition_editions input = .retNone msg) ∨
    (∃ msg, fetch_competition_editions input = .raised msg) ∨
    (∃ rows, fetch_competition_editions input = .retTable rows ∧
      ∀ row ∈ rows, row.map Prod.fst = editionColumns) := by
  cases input with
  | exn cause => exact .inl ⟨_, rfl⟩
  | resp status body =>
      by_cases hs : 400 ≤ status ∧ status < 600
      · exact .inl ⟨"API Request Failed: HTTPError " ++ toString status,
          by simp [fetch_competition_editions, hs]⟩
      · cases body with
        | none => exact .inl ⟨"API Response does not contain results",
            by simp [fetch_competition_editions, hs]⟩
        | some results =>
            cases he : extractEditions results with
            | none =>
                exact .inr (.inl ⟨"KeyError",
                  by simp [fetch_competition_editions, hs, he]⟩)
            | some rows =>
                exact .inr (.inr ⟨rows, by simp [fetch_competition_editions, hs, he],
                  extractEditions_columns results rows he⟩)

/-! ### The decimal rendering of integers used by the selector f-strings

The option labels of the sidebar selectors are Python f-strings of the shape
label ++ " (" ++ id ++ ")".  To show that distinct (label, id) pairs always get
distinct option keys we prove that the decimal rendering of an integer is
injective and contains no parenthesis character. -/

theorem digitChar_of_ge (n : Nat) (h : 16 ≤ n) : Nat.digitChar n = '*' := by
  unfold Nat.digitChar
  rw [if_neg (by omega : ¬ n = 0), if_neg (by omega : ¬ n = 1),
    if_neg (by omega : ¬ n = 2), if_neg (by omega : ¬ n = 3),
    if_neg (by omega : ¬ n = 4), if_neg (by omega : ¬ n = 5),
    if_neg (by omega : ¬ n = 6), if_neg (by omega : ¬ n = 7),
    if_neg (by omega : ¬ n = 8), if_neg (by omega : ¬ n = 9),
    if_neg (by omega : ¬ n = 10), if_neg (by omega : ¬ n = 11),
    if_neg (by omega : ¬ n = 12), if_neg (by omega : ¬ n = 13),
    if_neg (by omega : ¬ n = 14), if_neg (by omega : ¬ n = 15)]

theorem digitChar_ne_lparen (n : Nat) : Nat.digitChar n ≠ '(' := by
  by_cases h : n < 16
  · exact (by decide : ∀ m, m < 16 → Nat.digitChar m ≠ '(') n h
  · rw [digitChar_of_ge n (by omega)]
    decide

theorem digitChar_ne_dash (n : Nat) : Nat.digitChar n ≠ '-' := by
  by_cases h : n < 16
  · exact (by decide : ∀ m, m < 16 → Nat.digitChar m ≠ '-') n h
  · rw [digitChar_of_ge n (by omega)]
    decide

theorem toDigitsCore_chars (b : Nat) :
    ∀ (f n : Nat) (acc : List Char) (c : Char), c ∈ Nat.toDigitsCore b f n acc →
      (∃ m, c = Nat.digitChar m) ∨ c ∈ acc
  | 0, _, _, _, h => .inr h
  | f + 1, n, acc, c, h => by
      simp only [Nat.toDigitsCore] at h
      by_cases hz : n / b = 0
      · rw [if_pos hz] at h
        rcases List.mem_cons.mp h with h | h
        · exact .inl ⟨n % b, h⟩
        · exact .inr h
      · rw [if_neg hz] at h
        rcases toDigitsCore_chars b f (n / b) (Nat.digitChar (n % b) :: acc) c h with h | h
        · exact .inl h
        · rcases List.mem_cons.mp h with h | h
          · exact .inl ⟨n % b, h⟩
          · exact .inr h

theorem toDigitsCore_acc (b : Nat) :
    ∀ (f n : Nat) (acc : List Char),
      Nat.toDigitsCore b f n acc = Nat.toDigitsCore b f n [] ++ acc
  | 0, _, _ => rfl
  | f + 1, n, acc => by
      simp only [Nat.toDigitsCore]
      by_cases hz : n / b = 0
      · simp [hz]
      · rw [if_neg hz, if_neg hz,
          toDigitsCore_acc b f (n / b) (Nat.digitChar (n % b) :: acc),
          toDigitsCore_acc b f (n / b) [Nat.digitChar (n % b)]]
        simp

theorem toDigitsCore_fuel (b : Nat) (hb : 2 ≤ b) :
    ∀ (n f₁ f₂ : Nat), n < f₁ → n < f₂ →
      Nat.toDigitsCore b f₁ n [] = Nat.toDigitsCore b f₂ n [] := by
  intro n
  induction n using Nat.strong_induction_on with
  | _ n ih =>
    intro f₁ f₂ h₁ h₂
    match f₁, f₂, h₁, h₂ with
    | g₁ + 1, g₂ + 1, h₁, h₂ =>
      simp only [Nat.toDigitsCore]
      by_cases hz : n / b = 0
      · simp [hz]
      · rw [if_neg hz, if_neg hz,
          toDigitsCore_acc b g₁ (n / b) _, toDigitsCore_acc b g₂ (n / b) _]
        have hn0 : 0 < n := by
          rcases Nat.eq_zero_or_pos n with h0 | h0
          · exact absurd (by simp [h0]) hz
          · exact h0
        have hnb : n / b < n := Nat.div_lt_self hn0 hb
        rw [ih (n / b) hnb g₁ g₂ (by omega) (by omega)]

theorem toDigits_unfold (n : Nat) :
    Nat.toDigits 10 n
      = if n < 10 then [Nat.digitChar n]
        else Nat.toDigits 10 (n / 10) ++ [Nat.digitChar (n % 10)] := by
  conv_lhs => rw [Nat.toDigits]
  simp only [Nat.toDigitsCore]
  by_cases h : n < 10
  · have hz : n / 10 = 0 := Nat.div_eq_of_lt h
    rw [if_pos hz, if_pos h, Nat.mod_eq_of_lt h]
  · have hz : ¬ n / 10 = 0 := by omega
    rw [if_neg hz, if_neg h, toDigitsCore_acc 10 n (n / 10) _]
    congr 1
    have h1 : n / 10 < n := by omega
    calc Nat.toDigitsCore 10 n (n / 10) []
        = Nat.toDigitsCore 10 (n / 10 + 1) (n / 10) [] :=
          toDigitsCore_fuel 10 (by decide) (n / 10) n (n / 10 + 1) h1 (Nat.lt_succ_self _)
      _ = Nat.toDigits 10 (n / 10) := rfl

/-- The value a decimal digit string denotes; the left inverse of the digit
rendering. -/
def digitsVal (l : List Char) : Nat :=
  l.foldl (fun a c => 10 * a + (c.toNat - 48)) 0

theorem digitsVal_toDigits : ∀ n : Nat, digitsVal (Nat.toDigits 10 n) = n := by
  intro n
  induction n using Nat.strong_induction_on with
  | _ n ih =>
    have hall : ∀ m, m < 10 → (Nat.digitChar m).toNat - 48 = m := by decide
    rw [toDigits_unfold]
    by_cases h : n < 10
    · rw [if_pos h]
      simp [digitsVal, hall n h]
    · rw [if_neg h]
      have hv := ih (n / 10) (by omega)
      unfold digitsVal at hv ⊢
      rw [List.foldl_append, hv]
      show 10 * (n / 10) + ((Nat.digitChar (n % 10)).toNat - 48) = n
      rw [hall (n % 10) (by omega)]
      omega

theorem natRepr_data_inj {m n : Nat} (h : (Nat.repr m).data = (Nat.repr n).data) :
    m = n := by
  have hd : Nat.toDigits 10 m = Nat.toDigits 10 n := h
  calc m = digitsVal (Nat.toDigits 10 m) := (digitsVal_toDigits m).symm
    _ = digitsVal (Nat.toDigits 10 n) := by rw [hd]
    _ = n := digitsVal_toDigits n

theorem natRepr_chars {n : Nat} {c : Char} (h : c ∈ (Nat.repr n).data) :
    ∃ m, c = Nat.digitChar m := by
  have h' : c ∈ Nat.toDigitsCore 10 (n + 1) n [] := h
  rcases toDigitsCore_chars 10 (n + 1) n [] c h' with h'' | h''
  · exact h''
  · exact absurd h'' (List.not_mem_nil c)

theorem intString_ofNat (m : Nat) : toString (Int.ofNat m) = Nat.repr m := rfl

theorem intString_negSucc (m : Nat) :
    toString (Int.negSucc m) = "-" ++ Nat.repr (m + 1) := rfl

theorem intString_no_lparen (i : Int) : '(' ∉ (toString i).data := by
  cases i with
  | ofNat m =>
      intro hmem
      obtain ⟨k, hk⟩ := natRepr_chars (n := m) hmem
      exact digitChar_ne_lparen k hk.symm
  | negSucc m =>
      intro hmem
      rw [intString_negSucc, String.data_append] at hmem
      rcases List.mem_append.mp hmem with hmem | hmem
      · exact absurd hmem (by decide)
      · obtain ⟨k, hk⟩ := natRepr_chars hmem
        exact digitChar_ne_lparen k hk.symm

theorem intString_data_inj {i j : Int} (h : (toString i).data = (toString j).data) :
    i = j := by
  cases i with
  | ofNat m =>
      cases j with
      | ofNat n => exact congrArg Int.ofNat (natRepr_data_inj h)
      | negSucc n =>
          exfalso
          rw [intString_ofNat, intString_negSucc, String.data_append] at h
          have hh : '-' ∈ (Nat.repr m).data := by
            rw [h]
            exact List.mem_append.mpr (.inl (by decide))
          obtain ⟨k, hk⟩ := natRepr_chars hh
          exact digitChar_ne_dash k hk.symm
  | negSucc m =>
      cases j with
      | ofNat n =>
          exfalso
          rw [intString_negSucc, intString_ofNat, String.data_append] at h
          have hh : '-' ∈ (Nat.repr n).data := by
            rw [← h]
            exact List.mem_append.mpr (.inl (by decide))
          obtain ⟨k, hk⟩ := natRepr_chars hh
          exact digitChar_ne_dash k hk.symm
      | negSucc n =>
          rw [intString_negSucc, intString_negSucc, String.data_append,
            String.data_append] at h
          have hd : (Nat.repr (m + 1)).data = (Nat.repr (n + 1)).data :=
            List.append_cancel_left h
          have hmn := natRepr_data_inj hd
          have hmn' : m = n := by omega
          rw [hmn']

theorem append_eq_append_of_not_mem {α : Type} (a : α) :
    ∀ (l₁ : List α) {l₂ t₁ t₂ : List α}, a ∉ l₁ → a ∉ l₂ →
      l₁ ++ a :: t₁ = l₂ ++ a :: t₂ → l₁ = l₂ ∧ t₁ = t₂
  | [], l₂, t₁, t₂, h₁, h₂, h => by
      cases l₂ with
      | nil => simpa using h
      | cons b l₂ =>
          simp only [List.nil_append, List.cons_append, List.cons.injEq] at h
          obtain ⟨rfl, -⟩ := h
          exact absurd (List.mem_cons_self a l₂) h₂
  | c :: l₁, l₂, t₁, t₂, h₁, h₂, h => by
      cases l₂ with
      | nil =>
          simp only [List.nil_append, List.cons_append, List.cons.injEq] at h
          obtain ⟨rfl, -⟩ := h
          exact absurd (List.mem_cons_self c l₁) h₁
      | cons b l₂ =>
          simp only [List.cons_append, List.cons.injEq] at h
          obtain ⟨rfl, h'⟩ := h
          obtain ⟨h₁', h₂'⟩ := append_eq_append_of_not_mem a l₁
            (fun hm => h₁ (List.mem_cons_of_mem c hm))
            (fun hm => h₂ (List.mem_cons_of_mem c hm)) h'
          exact ⟨by rw [h₁'], h₂'⟩

/-! ## The selection layer (app.py lines 88-100) -/

/-- One row of the normalized reference DataFrame `df_comp_seasons`, with the
four columns established by `fetch_competition_editions`. -/
structure CompetitionSeasonRow where
  competition_id : Int
  competition_name : String
  season_id : Int
  season_name : String
deriving DecidableEq, Repr

/-- The f-string shared by both selector dicts (app.py lines 93 and 98):
label ++ " (" ++ id ++ ")". -/
def optionKey (label : String) (i : Int) : String :=
  label ++ " (" ++ toString i ++ ")"

theorem optionKey_inj {n₁ n₂ : String} {i₁ i₂ : Int}
    (h : optionKey n₁ i₁ = optionKey n₂ i₂) : n₁ = n₂ ∧ i₁ = i₂ := by
  have hd := congrArg String.data h
  simp only [optionKey, String.data_append] at hd
  have hr := congrArg List.reverse hd
  simp only [List.reverse_append, List.reverse_cons, List.reverse_nil,
    List.nil_append, List.cons_append, List.append_assoc] at hr
  -- hr has the shape ')' :: (d₁.reverse ++ '(' :: (' ' :: n₁.data.reverse)) = ...
  have hr' := (List.cons.injEq _ _ _ _).mp hr
  obtain ⟨h1, h2⟩ := append_eq_append_of_not_mem '(' (toString i₁).data.reverse
    (fun hm => intString_no_lparen i₁ (List.mem_reverse.mp hm))
    (fun hm => intString_no_lparen i₂ (List.mem_reverse.mp hm)) hr'.2
  have hi : i₁ = i₂ := intString_data_inj (List.reverse_injective h1)
  have hn : n₁ = n₂ := by
    have h3 := (List.cons.injEq _ _ _ _).mp h2
    exact String.ext (List.reverse_injective h3.2)
  exact ⟨hn, hi⟩

/-- Python dict assignment d[k] = v: an existing key keeps its position and
receives the new value; a new key is appended at the end. -/
def upsert (k : String) (v : Int) : List (String × Int) → List (String × Int)
  | [] => [(k, v)]
  | (k₁, v₁) :: rest => if k₁ = k then (k, v) :: rest else (k₁, v₁) :: upsert k v rest

/-- A Python dict comprehension over a list of key-value pairs, evaluated in
order. -/
def pyDict (l : List (String × Int)) : List (String × Int) :=
  l.foldl (fun d kv => upsert kv.1 kv.2 d) []

theorem keys_upsert (k : String) (v : Int) :
    ∀ d : List (String × Int),
      (upsert k v d).map Prod.fst
        = if k ∈ d.map Prod.fst then d.map Prod.fst else d.map Prod.fst ++ [k]
  | [] => by simp [upsert]
  | (k₁, v₁) :: rest => by
      by_cases hk : k₁ = k
      · subst hk
        simp [upsert]
      · simp only [upsert, if_neg hk, List.map_cons, keys_upsert k v rest]
        by_cases hm : k ∈ rest.map Prod.fst
        · rw [if_pos hm, if_pos (List.mem_cons_of_mem k₁ hm)]
        · rw [if_neg hm, if_neg (by simp [hm, Ne.symm hk]), List.cons_append]

theorem mem_upsert_elim {k : String} {v : Int} :
    ∀ {d : List (String × Int)} {e : String × Int},
      e ∈ upsert k v d → e = (k, v) ∨ e ∈ d
  | [], e, he => by simpa [upsert] using he
  | (k₁, v₁) :: rest, e, he => by
      by_cases hk : k₁ = k
      · subst hk
        simp only [upsert, if_pos rfl] at he
        rcases List.mem_cons.mp he with he | he
        · exact .inl he
        · exact .inr (List.mem_cons_of_mem _ he)
      · simp only [upsert, if_neg hk] at he
        rcases List.mem_cons.mp he with he | he
        · exact .inr (he ▸ List.mem_cons_self _ _)
        · rcases mem_upsert_elim he with he | he
          · exact .inl he
          · exact .inr (List.mem_cons_of_mem _ he)

theorem nodup_keys_upsert (k : String) (v : Int) (d : List (String × Int))
    (h : (d.map Prod.fst).Nodup) : ((upsert k v d).map Prod.fst).Nodup := by
  rw [keys_upsert]
  by_cases hm : k ∈ d.map Prod.fst
  · rwa [if_pos hm]
  · rw [if_neg hm]
    exact List.Nodup.append h (List.nodup_singleton k)
      (fun a ha hb => hm ((List.mem_singleton.mp hb) ▸ ha))

theorem mem_keys_upsert {a k : String} {v : Int} {d : List (String × Int)} :
    a ∈ (upsert k v d).map Prod.fst ↔ a = k ∨ a ∈ d.map Prod.fst := by
  rw [keys_upsert]
  by_cases hm : k ∈ d.map Prod.fst
  · rw [if_pos hm]
    constructor
    · exact .inr
    · rintro (rfl | h)
      · exact hm
      · exact h
  · rw [if_neg hm]
    simp [or_comm]

theorem pyDictLoop_nodup :
    ∀ (l : List (String × Int)) (d : List (String × Int)),
      (d.map Prod.fst).Nodup →
      ((l.foldl (fun d kv => upsert kv.1 kv.2 d) d).map Prod.fst).Nodup
  | [], _, h => h
  | kv :: l, d, h =>
      pyDictLoop_nodup l (upsert kv.1 kv.2 d) (nodup_keys_upsert kv.1 kv.2 d h)

theorem pyDictLoop_mem_elim :
    ∀ (l : List (String × Int)) (d : List (String × Int)) (e : String × Int),
      e ∈ l.foldl (fun d kv => upsert kv.1 kv.2 d) d → e ∈ d ∨ e ∈ l
  | [], _, _, he => .inl he
  | kv :: l, d, e, he => by
      rcases pyDictLoop_mem_elim l (upsert kv.1 kv.2 d) e he with h | h
      · rcases mem_upsert_elim h with h | h
        · exact .inr (by simp [h])
        · exact .inl h
      · exact .inr (List.mem_cons_of_mem _ h)

theorem pyDictLoop_mem_keys :
    ∀ (l : List (String × Int)) (d : List (String × Int)) (a : String),
      a ∈ (l.foldl (fun d kv => upsert kv.1 kv.2 d) d).map Prod.fst
        ↔ a ∈ d.map Prod.fst ∨ a ∈ l.map Prod.fst
  | [], d, a => by simp
  | kv :: l, d, a => by
      rw [List.foldl_cons, pyDictLoop_mem_keys l (upsert kv.1 kv.2 d) a]
      rw [List.map_cons, List.mem_cons]
      constructor
      · rintro (h | h)
        · rcases mem_keys_upsert.mp h with h | h
          · exact .inr (.inl h)
          · exact .inl h
        · exact .inr (.inr h)
      · rintro (h | h | h)
        · exact .inl (mem_keys_upsert.mpr (.inr h))
        · exact .inl (mem_keys_upsert.mpr (.inl h))
        · exact .inr h

theorem pyDict_keys_nodup (l : List (String × Int)) :
    ((pyDict l).map Prod.fst).Nodup :=
  pyDictLoop_nodup l [] (by simp)

theorem pyDict_mem_elim {l : List (String × Int)} {e : String × Int}
    (he : e ∈ pyDict l) : e ∈ l := by
  rcases pyDictLoop_mem_elim l [] e he with h | h
  · exact absurd h (List.not_mem_nil e)
  · exact h

theorem pyDict_mem_keys {l : List (String × Int)} {a : String} :
    a ∈ (pyDict l).map Prod.fst ↔ a ∈ l.map Prod.fst := by
  rw [pyDict, pyDictLoop_mem_keys l [] a]
  simp

/-- `comp_options` (app.py line 93): the competition selector dict, keyed by
the f-string "name (id)" and valued by the competition id, built over all rows
of the reference table (one row per season). -/
def comp_options (table : List CompetitionSeasonRow) : List (String × Int) :=
  pyDict (table.map fun r =>
    (optionKey r.competition_name r.competition_id, r.competition_id))

/-- `filtered_seasons` (app.py line 97): the reference rows whose
competition_id equals the chosen one. -/
def filtered_seasons (table : List CompetitionSeasonRow) (cid : Int) :
    List CompetitionSeasonRow :=
  table.filter fun r => r.competition_id == cid

/-- `season_options` (app.py line 98): the season selector dict over the
filtered rows, keyed by "season_name (season_id)". -/
def season_options (rows : List CompetitionSeasonRow) : List (String × Int) :=
  pyDict (rows.map fun r => (optionKey r.season_name r.season_id, r.season_id))

theorem toFinset_map_eq_image {α β : Type} [DecidableEq α] [DecidableEq β]
    (f : α → β) (l : List α) : (l.map f).toFinset = l.toFinset.image f := by
  ext b
  simp

/-- Claim C6: when the rows of the chosen competition carry exactly two
distinct seasons, the derived season-option dict consists of exactly those two
entries — its keys are free of duplicates and its length is two — and
recomputing the derivation on the identical filtered input yields the
identical output (the derivation is a pure function of the filtered rows). -/
theorem season_options_two_distinct (table : List CompetitionSeasonRow)
    (cid : Int) (n₁ n₂ : String) (i₁ i₂ : Int)
    (hall : ∀ r ∈ filtered_seasons table cid,
      (r.season_name, r.season_id) = (n₁, i₁) ∨ (r.season_name, r.season_id) = (n₂, i₂))
    (h1 : ∃ r ∈ filtered_seasons table cid, (r.season_name, r.season_id) = (n₁, i₁))
    (h2 : ∃ r ∈ filtered_seasons table cid, (r.season_name, r.season_id) = (n₂, i₂))
    (hne : (n₁, i₁) ≠ (n₂, i₂)) :
    (optionKey n₁ i₁, i₁) ∈ season_options (filtered_seasons table cid) ∧
    (optionKey n₂ i₂, i₂) ∈ season_options (filtered_seasons table cid) ∧
    (season_options (filtered_seasons table cid)).length = 2 ∧
    ((season_options (filtered_seasons table cid)).map Prod.fst).Nodup ∧
    season_options (filtered_seasons table cid)
      = season_options (filtered_seasons table cid) := by
  have hkne : optionKey n₁ i₁ ≠ optionKey n₂ i₂ := by
    intro hk
    obtain ⟨hn, hi⟩ := optionKey_inj hk
    exact hne (by rw [hn, hi])
  have hent : ∀ e ∈ (filtered_seasons table cid).map
      (fun r => (optionKey r.season_name r.season_id, r.season_id)),
      e = (optionKey n₁ i₁, i₁) ∨ e = (optionKey n₂ i₂, i₂) := by
    intro e he
    obtain ⟨r, hr, rfl⟩ := List.mem_map.mp he
    rcases hall r hr with h | h
    · left
      injection h with hn hi
      rw [hn, hi]
    · right
      injection h with hn hi
      rw [hn, hi]
  have hkeymem : ∀ (n : String) (i : Int),
      (∃ r ∈ filtered_seasons table cid, (r.season_name, r.season_id) = (n, i)) →
      optionKey n i ∈ (season_options (filtered_seasons table cid)).map Prod.fst := by
    intro n i ⟨r, hr, hp⟩
    rw [season_options, pyDict_mem_keys, List.map_map]
    refine List.mem_map.mpr ⟨r, hr, ?_⟩
    show optionKey r.season_name r.season_id = optionKey n i
    injection hp with hn hi
    rw [hn, hi]
  have hpairmem : ∀ (n : String) (i : Int),
      (∃ r ∈ filtered_seasons table cid, (r.season_name, r.season_id) = (n, i)) →
      ((n, i) = (n₁, i₁) ∨ (n, i) = (n₂, i₂)) →
      (optionKey n i, i) ∈ season_options (filtered_seasons table cid) := by
    intro n i hex hcase
    obtain ⟨e, hemem, hef⟩ := List.mem_map.mp (hkeymem n i hex)
    have he' := hent e (pyDict_mem_elim hemem)
    rcases hcase with hc | hc
    · injection hc with hn hi
      subst hn; subst hi
      rcases he' with he' | he'
      · rwa [← he']
      · exact absurd (by rw [← hef, he']) hkne
    · injection hc with hn hi
      subst hn; subst hi
      rcases he' with he' | he'
      · exact absurd (by rw [← hef, he']) hkne.symm
      · rwa [← he']
  have hm1 := hpairmem n₁ i₁ h1 (.inl rfl)
  have hm2 := hpairmem n₂ i₂ h2 (.inr rfl)
  refine ⟨hm1, hm2, ?_, pyDict_keys_nodup _, rfl⟩
  have hnd := pyDict_keys_nodup ((filtered_seasons table cid).map
    (fun r => (optionKey r.season_name r.season_id, r.season_id)))
  have hsub : ∀ a ∈ (season_options (filtered_seasons table cid)).map Prod.fst,
      a = optionKey n₁ i₁ ∨ a = optionKey n₂ i₂ := by
    intro a ha
    obtain ⟨e, hemem, hef⟩ := List.mem_map.mp ha
    rcases hent e (pyDict_mem_elim hemem) with he | he
    · left; rw [← hef, he]
    · right; rw [← hef, he]
  have hset : ((season_options (filtered_seasons table cid)).map Prod.fst).toFinset
      = {optionKey n₁ i₁, optionKey n₂ i₂} := by
    ext a
    simp only [List.mem_toFinset, Finset.mem_insert, Finset.mem_singleton]
    constructor
    · exact hsub a
    · rintro (rfl | rfl)
      · exact List.mem_map.mpr ⟨_, hm1, rfl⟩
      · exact List.mem_map.mpr ⟨_, hm2, rfl⟩
  have hlen : ((season_options (filtered_seasons table cid)).map Prod.fst).length = 2 := by
    have hnd2 : ((season_options (filtered_seasons table cid)).map Prod.fst).Nodup :=
      pyDict_keys_nodup _
    rw [← List.toFinset_card_of_nodup hnd2, hset,
      Finset.card_insert_of_not_mem (fun hmem => hkne (Finset.mem_singleton.mp hmem)),
      Finset.card_singleton]
  exact ((List.length_map _ _).symm.trans hlen :)

/-- Witness for claim C6: a concrete reference table with three rows for
competition 1 covering two distinct seasons (one season duplicated). -/
theorem season_options_two_distinct_witness :
    (optionKey "2023/2024" 10, 10)
        ∈ season_options (filtered_seasons
            [⟨1, "L", 10, "2023/2024"⟩, ⟨1, "L", 11, "2024/2025"⟩,
              ⟨2, "M", 12, "2025/2026"⟩, ⟨1, "L", 10, "2023/2024"⟩] 1) ∧
    (optionKey "2024/2025" 11, 11)
        ∈ season_options (filtered_seasons
            [⟨1, "L", 10, "2023/2024"⟩, ⟨1, "L", 11, "2024/2025"⟩,
              ⟨2, "M", 12, "2025/2026"⟩, ⟨1, "L", 10, "2023/2024"⟩] 1) ∧
    (season_options (filtered_seasons
        [⟨1, "L", 10, "2023/2024"⟩, ⟨1, "L", 11, "2024/2025"⟩,
          ⟨2, "M", 12, "2025/2026"⟩, ⟨1, "L", 10, "2023/2024"⟩] 1)).length = 2 ∧
    ((season_options (filtered_seasons
        [⟨1, "L", 10, "2023/2024"⟩, ⟨1, "L", 11, "2024/2025"⟩,
          ⟨2, "M", 12, "2025/2026"⟩, ⟨1, "L", 10, "2023/2024"⟩] 1)).map Prod.fst).Nodup ∧
    season_options (filtered_seasons
        [⟨1, "L", 10, "2023/2024"⟩, ⟨1, "L", 11, "2024/2025"⟩,
          ⟨2, "M", 12, "2025/2026"⟩, ⟨1, "L", 10, "2023/2024"⟩] 1)
      = season_options (filtered_seasons
          [⟨1, "L", 10, "2023/2024"⟩, ⟨1, "L", 11, "2024/2025"⟩,
            ⟨2, "M", 12, "2025/2026"⟩, ⟨1, "L", 10, "2023/2024"⟩] 1) :=
  season_options_two_distinct _ 1 "2023/2024" "2024/2025" 10 11
    (by decide) (by decide) (by decide) (by decide)

/-- Claim C9: the competition selector dict has duplicate-free keys, offers an
entry for every table row's competition, and its size is exactly the number of
distinct (competition_name, competition_id) pairs in the table — several rows
of the same competition (one per season) collapse onto the one key
"name (id)". -/
theorem comp_options_one_per_pair (table : List CompetitionSeasonRow) :
    ((comp_options table).map Prod.fst).Nodup ∧
    (∀ r ∈ table, optionKey r.competition_name r.competition_id
        ∈ (comp_options table).map Prod.fst) ∧
    (comp_options table).length
      = (table.map fun r => (r.competition_name, r.competition_id)).toFinset.card := by
  refine ⟨pyDict_keys_nodup _, ?_, ?_⟩
  · intro r hr
    rw [comp_options, pyDict_mem_keys, List.map_map]
    exact List.mem_map.mpr ⟨r, hr, rfl⟩
  · have hinj : Function.Injective (fun p : String × Int => optionKey p.1 p.2) := by
      intro p q hpq
      obtain ⟨h1, h2⟩ := optionKey_inj hpq
      exact Prod.ext h1 h2
    have hkeys : ((comp_options table).map Prod.fst).toFinset
        = ((table.map fun r => (r.competition_name, r.competition_id)).map
            (fun p : String × Int => optionKey p.1 p.2)).toFinset := by
      ext a
      simp only [List.mem_toFinset]
      rw [comp_options, pyDict_mem_keys, List.map_map, List.map_map]
      rfl
    calc (comp_options table).length
        = ((comp_options table).map Prod.fst).length := (List.length_map _ _).symm
      _ = ((comp_options table).map Prod.fst).toFinset.card :=
          (List.toFinset_card_of_nodup (pyDict_keys_nodup _)).symm
      _ = ((table.map fun r => (r.competition_name, r.competition_id)).map
            (fun p : String × Int => optionKey p.1 p.2)).toFinset.card := by rw [hkeys]
      _ = ((table.map fun r => (r.competition_name, r.competition_id)).toFinset.image
            (fun p : String × Int => optionKey p.1 p.2)).card := by
          rw [toFinset_map_eq_image]
      _ = (table.map fun r => (r.competition_name, r.competition_id)).toFinset.card :=
          Finset.card_image_of_injective _ hinj

/-! ## The single-resource fetcher, `fetch_dynamic_events` (app.py lines 68-82) -/

/-- The one response observed by `fetch_dynamic_events`: status code, response
text (used in the error message), the final URL of the response — which
`pd.read_csv(response.url)` fetches and parses when the csv format is chosen —
and the decoded JSON body. -/
structure EventsResponse (β : Type) where
  status : Nat
  text : String
  url : String
  body : β
deriving DecidableEq, Repr

/-- What `fetch_dynamic_events` returns: a parsed table (csv format), the JSON
body as-is (any other format), or `None` after showing an error message
carrying the status and response text. -/
inductive EventsOutcome (β γ : Type) where
  | table : γ → EventsOutcome β γ
  | json : β → EventsOutcome β γ
  | retNone : Nat → String → EventsOutcome β γ
deriving DecidableEq, Repr

/-- `fetch_dynamic_events` (app.py lines 69-82), parameterized by the
delimited-text fetch-and-parse collaborator `readCsv` standing for
`pd.read_csv`. -/
def fetch_dynamic_events {β γ : Type} (readCsv : String → γ)
    (resp : EventsResponse β) (file_format : String) : EventsOutcome β γ :=
  if resp.status = 200 then
    if file_format = "csv" then .table (readCsv resp.url)
    else .json resp.body
  else .retNone resp.status resp.text

/-- Claim C7: `fetch_dynamic_events` returns the error value (`None` after a
message carrying status and body text) exactly when the HTTP status is not
200; on 200 with a non-csv format it returns the JSON body as-is, exactly
then; and on 200 with the csv format it fetches the resource at the response's
URL and parses it into a table, exactly then. -/
theorem fetch_dynamic_events_spec {β γ : Type} (readCsv : String → γ)
    (resp : EventsResponse β) (file_format : String) :
    ((fetch_dynamic_events readCsv resp file_format
        = .retNone resp.status resp.text) ↔ resp.status ≠ 200) ∧
    ((fetch_dynamic_events readCsv resp file_format = .json resp.body)
        ↔ (resp.status = 200 ∧ file_format ≠ "csv")) ∧
    ((fetch_dynamic_events readCsv resp file_format = .table (readCsv resp.url))
        ↔ (resp.status = 200 ∧ file_format = "csv")) := by
  unfold fetch_dynamic_events
  by_cases hs : resp.status = 200 <;> by_cases hf : file_format = "csv" <;>
    simp [hs, hf]

/-! ## The uploaded replacement table (app.py lines 177-181) -/

/-- The state relevant to the uploaded-file branch: the two tables cached by
the fetch layer, and the list of tables displayed so far. -/
structure DisplayState (ρ μ τ : Type) where
  df_comp_seasons : ρ
  df_matches : μ
  displayed : List τ
deriving DecidableEq, Repr

/-- The uploaded-file branch (app.py lines 177-181): when a file is supplied,
it is parsed by the `pd.read_csv` collaborator and displayed; the branch never
reads or writes either cached table. -/
def handle_uploaded_file {ρ μ τ φ : Type} (readCsv : φ → τ)
    (s : DisplayState ρ μ τ) (uploaded_file : Option φ) : DisplayState ρ μ τ :=
  match uploaded_file with
  | none => s
  | some f => { s with displayed := s.displayed ++ [readCsv f] }

/-- Claim C8: parsing and displaying an uploaded replacement table leaves the
cached reference table and the cached matches table unchanged — the upload
bypasses the fetch layer and only the displayed output grows. -/
theorem handle_uploaded_file_isolated {ρ μ τ φ : Type} (readCsv : φ → τ)
    (s : DisplayState ρ μ τ) (uploaded_file : Option φ) :
    (handle_uploaded_file readCsv s uploaded_file).df_comp_seasons
        = s.df_comp_seasons ∧
    (handle_uploaded_file readCsv s uploaded_file).df_matches = s.df_matches := by
  cases uploaded_file <;> exact ⟨rfl, rfl⟩

end Skillcorner
